import Mathlib

set_option linter.unusedVariables false

/-!
Verification of the wasm-plugins repository: a shallow embedding of the
plugin SDK (`wasm-plugin-sdk/src/lib.rs`, `api/text.rs`, `api/ui.rs`) and of
the three example plugins (`plugins/markdown`, `plugins/tag-manager`,
`plugins/word-counter`), together with theorems settling the specification
claims about capability checking, handler lifetime, tag extraction, text
statistics, event dispatch and console logging.

Modelling conventions: Rust strings are Lean `String`s (worked on through
`String.data : List Char`; character predicates are the ASCII fragment of
the corresponding Rust `char` methods); `Result<T, JsValue>` is
`Except JsErr T`; a fallible cross-boundary payload is `Option JVal`
(`none` = the `serde_wasm_bindgen::from_value` error branch); each bridge
method additionally reports the list of host-API invocations it performs,
so "performs no host mutation" is directly observable.
-/

/-- Opaque error value crossing the boundary (`JsValue` used as an error). -/
structure JsErr where
  message : String
deriving DecidableEq

/-- A privileged host-API invocation a bridge method could perform. -/
inductive HostCall where
  | replaceContent (s : String)
  | insertAtCursor (s : String)
  | updatePanel (panelId html : String)
  | updateStatusBar (itemId text : String)
deriving DecidableEq

/-- `PluginManifest` from `wasm-plugin-sdk/src/lib.rs` (lines 112–120). -/
structure PluginManifest where
  id : String
  name : String
  version : String
  description : String
  author : String
  permissions : List String
deriving DecidableEq

/-- `TextAPI::get_content` (`api/text.rs` lines 29–33): the body is
`String::new()`; no host call, no capability check. The second component
is the list of host-API invocations performed (none). -/
def TextAPI.get_content : String × List HostCall :=
  (String.mk [], [])

/-- `TextAPI::get_selection` (`api/text.rs` lines 38–40): body is
`String::new()`. -/
def TextAPI.get_selection : String × List HostCall :=
  (String.mk [], [])

/-- `TextAPI::replace_content` (`api/text.rs` lines 45–48): the body is
`Ok(())`; the `new_content` argument is unused, no host call is made and
no capability is checked. -/
def TextAPI.replace_content (newContent : String) : Except JsErr Unit × List HostCall :=
  (Except.ok (), [])

/-- `TextAPI::insert_at_cursor` (`api/text.rs` lines 53–56): body is
`Ok(())`. -/
def TextAPI.insert_at_cursor (text : String) : Except JsErr Unit × List HostCall :=
  (Except.ok (), [])

/-- `UiAPI::update_panel` (`api/ui.rs` lines 27–31): body is `Ok(())`. -/
def UiAPI.update_panel (panelId html : String) : Except JsErr Unit × List HostCall :=
  (Except.ok (), [])

/-- `UiAPI::update_status_bar` (`api/ui.rs` lines 40–43): body is
`Ok(())`. -/
def UiAPI.update_status_bar (itemId text : String) : Except JsErr Unit × List HostCall :=
  (Except.ok (), [])

/-! ## Console bridge (`wasm-plugin-sdk/src/lib.rs` lines 32–73) -/

/-- Level of the host console sink targeted by a console-bridge call. -/
inductive LogLevel where
  | log
  | error
  | warn
deriving DecidableEq

/-- One forwarded call to the host console sink (`console.log` /
`console.error` / `console.warn` extern bindings, lib.rs lines 32–42). -/
structure HostLogCall where
  level : LogLevel
  message : String
deriving DecidableEq

/-- `format!("[Plugin] {}", msg)` from lib.rs. -/
def formatPluginMsg (msg : String) : String :=
  "[Plugin] " ++ msg

/-- `console_log` (lib.rs lines 61–63): forwards the prefixed message to
the host `log` sink. -/
def console_log (msg : String) : HostLogCall :=
  ⟨LogLevel.log, formatPluginMsg msg⟩

/-- `console_error` (lib.rs lines 66–68). -/
def console_error (msg : String) : HostLogCall :=
  ⟨LogLevel.error, formatPluginMsg msg⟩

/-- `console_warn` (lib.rs lines 71–73). -/
def console_warn (msg : String) : HostLogCall :=
  ⟨LogLevel.warn, formatPluginMsg msg⟩

/-! ## Text utilities shared by the plugins

`str.split_whitespace()`, `str.lines()`, `str.split("\n\n")`, `str.trim()`
from the Rust standard library, embedded on `List Char` (ASCII fragment of
the Unicode predicates). -/

/-- Helper for `split_whitespace`: accumulates the current word (reversed)
while scanning. Words are the maximal runs of non-whitespace characters;
no empty word is produced. -/
def splitWsAux : List Char → List Char → List (List Char)
  | [], acc => if acc.isEmpty then [] else [acc.reverse]
  | c :: cs, acc =>
    if c.isWhitespace then
      if acc.isEmpty then splitWsAux cs [] else acc.reverse :: splitWsAux cs []
    else splitWsAux cs (c :: acc)

/-- Rust `str::split_whitespace`: whitespace-delimited non-empty tokens. -/
def splitWs (cs : List Char) : List (List Char) :=
  splitWsAux cs []

/-- Rust `str::split('\n')`: the newline-separated segments, keeping empty
segments (always at least one segment). -/
def splitNl : List Char → List (List Char)
  | [] => [[]]
  | c :: cs =>
    if c = '\n' then [] :: splitNl cs
    else
      match splitNl cs with
      | [] => [[c]]
      | p :: ps => (c :: p) :: ps

/-- Strip one trailing `'\r'` (the `\r\n` handling inside Rust
`str::lines`). -/
def stripCr (l : List Char) : List Char :=
  match l.getLast? with
  | some '\r' => l.dropLast
  | _ => l

/-- Rust `str::lines()`: split on `'\n'` with the terminator semantics (a
final empty segment produced by a trailing newline, or by the empty
string, is dropped), each line stripped of one trailing `'\r'`. -/
def rustLines (cs : List Char) : List (List Char) :=
  let p := splitNl cs
  (if p.getLast? = some [] then p.dropLast else p).map stripCr

/-- Rust `str::split("\n\n")`: split at non-overlapping, leftmost-first
occurrences of the two-character pattern. Second argument is the reversed
accumulator for the current segment. -/
def splitOnNlNl : List Char → List Char → List (List Char)
  | [], acc => [acc.reverse]
  | '\n' :: '\n' :: rest, acc => acc.reverse :: splitOnNlNl rest []
  | c :: rest, acc => splitOnNlNl rest (c :: acc)

/-- Rust `str::trim`: drop whitespace from both ends. -/
def rustTrim (cs : List Char) : List Char :=
  ((cs.dropWhile Char.isWhitespace).reverse.dropWhile Char.isWhitespace).reverse

/-! ## Word counter (`plugins/word-counter/src/lib.rs`) -/

/-- The `Stats` struct (word-counter lib.rs lines 3–10). -/
structure Stats where
  words : Nat
  characters : Nat
  characters_no_spaces : Nat
  lines : Nat
  paragraphs : Nat
deriving DecidableEq

/-- `count_stats` (word-counter lib.rs lines 60–83): word, character,
line and paragraph statistics of a text. -/
def count_stats (text : String) : Stats :=
  let cs := text.data
  { words := ((splitWs cs).filter (fun s => !s.isEmpty)).length
    characters := cs.length
    characters_no_spaces := (cs.filter (fun c => !c.isWhitespace)).length
    lines := (rustLines cs).length.max 1
    paragraphs :=
      (((splitOnNlNl cs []).filter (fun s => !(rustTrim s).isEmpty)).length).max 1 }

/-! ## Tag manager (`plugins/tag-manager/src/lib.rs`) -/

/-- The character class kept by the tag trimmer: Rust
`c.is_alphanumeric() || c == '-' || c == '_'` (ASCII fragment). -/
def isTagChar (c : Char) : Bool :=
  c.isAlphanum || c = '-' || c = '_'

/-- Rust `trim_start_matches('#')`: remove every leading `'#'`. -/
def trimStartHashes (cs : List Char) : List Char :=
  cs.dropWhile (fun c => c = '#')

/-- Rust `trim_end_matches(|c| !c.is_alphanumeric() && c != '-' && c != '_')`:
remove the maximal trailing run of non-tag characters. -/
def trimEndNonTag (cs : List Char) : List Char :=
  (cs.reverse.dropWhile (fun c => !isTagChar c)).reverse

/-- Rust `str::to_lowercase` (ASCII fragment, applied characterwise). -/
def lowerChar (c : Char) : Char :=
  if c.isUpper then Char.ofNat (c.toNat + 32) else c

/-- The tag derived from one word: strip leading `'#'`s, trim the trailing
non-tag run, lowercase (tag-manager lib.rs lines 57–59). -/
def tagOf (w : List Char) : String :=
  String.mk ((trimEndNonTag (trimStartHashes w)).map lowerChar)

/-- Executable lexicographic comparison on character lists: the order Rust
`Vec<String>::sort` uses (byte-lexicographic on UTF-8, which coincides with
codepoint-lexicographic order). -/
def charListLe : List Char → List Char → Bool
  | [], _ => true
  | _ :: _, [] => false
  | a :: as, b :: bs => if a = b then charListLe as bs else decide (a < b)

/-- Executable string comparison used by the sort in
`extract_tags_internal`. -/
def strLe (a b : String) : Bool :=
  charListLe a.data b.data

/-- `HashSet::insert` on the list model: add the element only when it is
not yet present. -/
def hsInsert (s : String) (l : List String) : List String :=
  if s ∈ l then l else l ++ [s]

/-- The tag-collection loop of `extract_tags_internal` (tag-manager
lib.rs lines 55–65): for each whitespace-delimited word starting with `'#'`
and longer than one character, insert its trimmed lowercased tag into the
set unless the tag is empty. -/
def collectTags : List (List Char) → List String → List String
  | [], acc => acc
  | w :: ws, acc =>
    if w.head? = some '#' ∧ 1 < w.length then
      if tagOf w ≠ "" then collectTags ws (hsInsert (tagOf w) acc) else collectTags ws acc
    else collectTags ws acc

/-- `extract_tags_internal` (tag-manager lib.rs lines 52–71): collect the
tag set over the whitespace-split words, then sort. -/
def extract_tags_internal (text : String) : List String :=
  List.insertionSort (fun a b => strLe a b = true) (collectTags (splitWs text.data) [])

/-! ## Dispatch payloads and the three `content.changed` handlers

The handler closures registered in each plugin's `activate` (markdown
lib.rs lines 18–42, tag-manager lib.rs lines 17–41, word-counter lib.rs
lines 25–49). The incoming `JsValue` is modelled as `Option JVal`: `none`
is the `serde_wasm_bindgen::from_value` error branch, `some v` a parsed
`serde_json::Value`. All handlers are total Lean functions: the embedding
has no panic/abort path, matching the `unwrap_or` style of the source. -/

/-- A `serde_json::Value`. -/
inductive JVal where
  | jnull
  | jbool (b : Bool)
  | jnum (n : Int)
  | jstr (s : String)
  | jarr (xs : List JVal)
  | jobj (fields : List (String × JVal))

/-- `serde_json::Value::get(key)` on the model: field lookup, `none` for
non-objects and missing keys. -/
def JVal.getField : JVal → String → Option JVal
  | .jobj fields, key => fields.lookup key
  | _, _ => none

/-- The `"content"` field of a payload when it is present and a string
(`val.get("content").and_then(|v| v.as_str())`). -/
def contentFieldStr (data : Option JVal) : Option String :=
  match data with
  | none => none
  | some v =>
    match v.getField "content" with
    | some (.jstr s) => some s
    | _ => none

/-- The content-extraction prologue shared by all three handlers:
`from_value(...)` then `.get("content").and_then(as_str).unwrap_or("")`,
with `Err(_) => String::new()`. -/
def extractContent (data : Option JVal) : String :=
  match contentFieldStr data with
  | some s => s
  | none => ""

/-- A handler's result crossing back over the boundary: the `JsValue::NULL`
sentinel or one of the discriminator-tagged results (`"render"`, `"tags"`,
`"stats"`). -/
inductive HandlerOut where
  | null
  | render (html : String)
  | tags (ts : List String)
  | stats (s : Stats)
deriving DecidableEq

/-- The markdown plugin's `content.changed` handler (markdown lib.rs
lines 18–42). `render` abstracts the external `pulldown_cmark` renderer,
which is out of the embedding's scope. -/
def markdownHandler (render : String → String) (data : Option JVal) : HandlerOut :=
  let content := extractContent data
  if content = "" then HandlerOut.null
  else HandlerOut.render (render content)

/-- The tag-manager plugin's `content.changed` handler (tag-manager lib.rs
lines 17–41). -/
def tagHandler (data : Option JVal) : HandlerOut :=
  let content := extractContent data
  if content = "" then HandlerOut.null
  else HandlerOut.tags (extract_tags_internal content)

/-- The word-counter plugin's `content.changed` handler (word-counter
lib.rs lines 25–49). -/
def wordCountHandler (data : Option JVal) : HandlerOut :=
  let content := extractContent data
  if content = "" then HandlerOut.null
  else HandlerOut.stats (count_stats content)

/-! ## Host-side command/event registry and lifecycle controller

Modelled from the spec: the host-side dispatch table behind the
`pluginAPI.registerCommand` / `registerEvent` / `unregisterCommand` /
`unregisterEvent` extern declarations (sdk lib.rs lines 45–58) and the
Lifecycle Controller of spec §4.3/§4.4 are host code absent from this
repository's sources; the model follows the spec's words: a table with at
most one live handler per `(kind, name)` pair, and a deactivation step in
which "the Lifecycle Controller releases every Handler owned by this
Instance". -/

/-- Namespace of a registry binding: command id or event name (spec §3,
"Registry Entry"). -/
inductive HKind where
  | command
  | event
deriving DecidableEq

/-- One live registry binding: `(kind, name) ↦ handler`, owned by the
instance that registered it. Handlers are identified by numeric tokens. -/
structure RegEntry where
  kind : HKind
  name : String
  owner : Nat
  handler : Nat
deriving DecidableEq

/-- The host-side dispatch table. -/
structure Registry where
  entries : List RegEntry
deriving DecidableEq

/-- Modelled from the spec (§4.4): `deactivate()` makes the Lifecycle
Controller release every Handler owned by the instance; every entry of the
deactivated instance is removed from the table. -/
def deactivateInstance (inst : Nat) (r : Registry) : Registry :=
  ⟨r.entries.filter (fun e => e.owner != inst)⟩

/-- Modelled from the spec (§4.3): `dispatch` looks up the bound handler
for `(kind, name)`; `none` is the "no result" sentinel for an absent
listener. -/
def dispatchLookup (r : Registry) (kind : HKind) (name : String) : Option RegEntry :=
  r.entries.find? (fun e => e.kind == kind && e.name == name)

/-! ## SDK-side closure lifetime (`register_command` / `register_event`)

`register_command` (sdk lib.rs lines 84–91) and `register_event` (lines
102–109) box the handler closure, hand a reference to the host, and call
`Closure::forget()` ("Keep closure alive"): from that point the closure is
never dropped by the SDK. The state tracks the host table (entry add and
remove follow the spec contract for the host-side `pluginAPI` functions)
together with `alive`, the set of closures currently allocated on the
plugin side. -/

/-- Insert-or-replace for the host table model ("last registration wins",
spec §3). -/
def upsert (key : String) (v : Nat) : List (String × Nat) → List (String × Nat)
  | [] => [(key, v)]
  | (k2, v2) :: rest => if k2 = key then (key, v) :: rest else (k2, v2) :: upsert key v rest

/-- One SDK registration-API call. -/
inductive SdkOp where
  | regCommand (id : String) (h : Nat)
  | regEvent (name : String) (h : Nat)
  | unregCommand (id : String)
  | unregEvent (name : String)
deriving DecidableEq

/-- SDK-visible state: the host's command and event tables, plus the set
of closures the SDK has allocated and `forget`-ted (still reachable). -/
structure SdkState where
  commands : List (String × Nat)
  events : List (String × Nat)
  alive : List Nat
deriving DecidableEq

/-- State before any registration. -/
def initSdk : SdkState :=
  ⟨[], [], []⟩

/-- Effect of one SDK call. `register_*` wraps the closure, registers it
with the host and calls `forget()`, so the closure joins `alive` and never
leaves it; `unregister*` only removes the host-table entry (sdk lib.rs
lines 84–91 and 102–109; the source has no drop path for a forgotten
closure). -/
def stepSdk (s : SdkState) : SdkOp → SdkState
  | SdkOp.regCommand id h => ⟨upsert id h s.commands, s.events, h :: s.alive⟩
  | SdkOp.regEvent name h => ⟨s.commands, upsert name h s.events, h :: s.alive⟩
  | SdkOp.unregCommand id => ⟨s.commands.filter (fun p => p.1 ≠ id), s.events, s.alive⟩
  | SdkOp.unregEvent name => ⟨s.commands, s.events.filter (fun p => p.1 ≠ name), s.alive⟩

/-- Run a sequence of SDK calls. -/
def runSdk (s : SdkState) : List SdkOp → SdkState
  | [] => s
  | op :: ops => runSdk (stepSdk s op) ops

/-- Every handler referenced from either host table is still allocated. -/
def sdkInv (s : SdkState) : Prop :=
  (∀ p ∈ s.commands, p.2 ∈ s.alive) ∧ (∀ p ∈ s.events, p.2 ∈ s.alive)

/-- Modelled from the spec's words, for comparison with `count_stats`:
"`lines` = newline-delimited segments (minimum 1)" (spec §6): the number
of segments the text is cut into at its newline characters, floored at
one. -/
def specNewlineSegments (t : String) : Nat :=
  ((splitNl t.data).length).max 1

/-! ## Helper lemmas -/

theorem charListLe_iff : ∀ as bs : List Char,
    charListLe as bs = true ↔ ¬ List.Lex (· < ·) bs as
  | [], bs => iff_of_true rfl (fun h => by cases h)
  | a :: as, [] => iff_of_false (by simp [charListLe]) (fun h => h List.Lex.nil)
  | a :: as, b :: bs => by
    unfold charListLe
    by_cases hab : a = b
    · subst hab
      rw [if_pos rfl, charListLe_iff as bs]
      constructor
      · intro h hlex
        cases hlex with
        | rel hr => exact absurd hr (lt_irrefl a)
        | cons htail => exact h htail
      · intro h htail
        exact h (List.Lex.cons htail)
    · rw [if_neg hab]
      constructor
      · intro h hlex
        cases hlex with
        | rel hr => exact absurd (lt_trans (of_decide_eq_true h) hr) (lt_irrefl a)
        | cons => exact hab rfl
      · intro h
        rcases lt_trichotomy a b with hlt | heq | hgt
        · exact decide_eq_true hlt
        · exact absurd heq hab
        · exact absurd (List.Lex.rel hgt) h

/-- `strLe` agrees with the lexicographic order on `String`. -/
theorem strLe_iff (a b : String) : strLe a b = true ↔ a ≤ b := by
  rw [strLe, charListLe_iff, String.le_iff_toList_le, ← not_lt]
  exact Iff.rfl

instance strLeIsTotal : IsTotal String (fun a b => strLe a b = true) :=
  ⟨fun a b => by rw [strLe_iff, strLe_iff]; exact le_total a b⟩

instance strLeIsTrans : IsTrans String (fun a b => strLe a b = true) :=
  ⟨fun a b c hab hbc => by
    rw [strLe_iff] at hab hbc ⊢
    exact le_trans hab hbc⟩

theorem ofNat_isUpper_false (n : Nat) (h1 : 97 ≤ n) (h2 : n ≤ 122) :
    (Char.ofNat n).isUpper = false := by
  have hv : n.isValidChar := Or.inl (by omega)
  simp only [Char.ofNat, dif_pos hv, Char.ofNatAux, Char.isUpper]
  simp only [Bool.and_eq_false_iff, decide_eq_false_iff_not, ge_iff_le]
  right
  rw [UInt32.le_def, BitVec.le_def]
  simp only [BitVec.toNat_ofNatLt]
  have h90 : ((90 : UInt32).toBitVec).toNat = 90 := rfl
  rw [h90]
  omega

theorem upper_toNat_bounds (c : Char) (h : c.isUpper = true) :
    65 ≤ c.toNat ∧ c.toNat ≤ 90 := by
  unfold Char.isUpper at h
  rw [Bool.and_eq_true, decide_eq_true_eq, decide_eq_true_eq] at h
  obtain ⟨h1, h2⟩ := h
  rw [ge_iff_le, UInt32.le_def, BitVec.le_def] at h1
  rw [UInt32.le_def, BitVec.le_def] at h2
  exact ⟨h1, h2⟩

/-- The output of the lowercasing map is never an ASCII uppercase
letter. -/
theorem lowerChar_not_upper (c : Char) : (lowerChar c).isUpper = false := by
  unfold lowerChar
  by_cases h : c.isUpper = true
  · rw [if_pos h]
    obtain ⟨h1, h2⟩ := upper_toNat_bounds c h
    exact ofNat_isUpper_false (c.toNat + 32) (by omega) (by omega)
  · rw [if_neg (by simpa using h)]
    exact Bool.eq_false_iff.mpr h
theorem mem_hsInsert {t s : String} {l : List String} :
    t ∈ hsInsert s l ↔ t = s ∨ t ∈ l := by
  unfold hsInsert
  split
  · rename_i hs
    constructor
    · exact fun h => Or.inr h
    · rintro (rfl | h)
      · exact hs
      · exact h
  · simp [List.mem_append, or_comm]

theorem nodup_hsInsert {s : String} {l : List String} (h : l.Nodup) :
    (hsInsert s l).Nodup := by
  unfold hsInsert
  split
  · exact h
  · rename_i hs
    rw [List.nodup_append]
    refine ⟨h, List.nodup_singleton s, ?_⟩
    intro a ha hs'
    rw [List.mem_singleton] at hs'
    exact hs (hs' ▸ ha)

theorem nodup_collectTags : ∀ (ws : List (List Char)) (acc : List String),
    acc.Nodup → (collectTags ws acc).Nodup
  | [], acc, h => h
  | w :: ws, acc, h => by
    unfold collectTags
    split
    · split
      · exact nodup_collectTags ws _ (nodup_hsInsert h)
      · exact nodup_collectTags ws _ h
    · exact nodup_collectTags ws _ h

theorem mem_collectTags : ∀ (ws : List (List Char)) (acc : List String) (t : String),
    t ∈ collectTags ws acc ↔
      t ∈ acc ∨ ∃ w, w ∈ ws ∧ (w.head? = some '#' ∧ 1 < w.length) ∧ tagOf w = t ∧ tagOf w ≠ ""
  | [], acc, t => by simp [collectTags]
  | w :: ws, acc, t => by
    unfold collectTags
    split
    · rename_i hq
      split
      · rename_i ht
        rw [mem_collectTags ws _ t]
        constructor
        · rintro (hmem | ⟨w', hw', hq', he', hne'⟩)
          · rcases mem_hsInsert.mp hmem with rfl | hacc
            · exact Or.inr ⟨w, List.mem_cons_self w ws, hq, rfl, ht⟩
            · exact Or.inl hacc
          · exact Or.inr ⟨w', List.mem_cons_of_mem w hw', hq', he', hne'⟩
        · rintro (hacc | ⟨w', hw', hq', he', hne'⟩)
          · exact Or.inl (mem_hsInsert.mpr (Or.inr hacc))
          · rcases List.mem_cons.mp hw' with rfl | hw''
            · exact Or.inl (mem_hsInsert.mpr (Or.inl he'.symm))
            · exact Or.inr ⟨w', hw'', hq', he', hne'⟩
      · rename_i ht
        rw [not_not] at ht
        rw [mem_collectTags ws _ t]
        constructor
        · rintro (hacc | ⟨w', hw', hq', he', hne'⟩)
          · exact Or.inl hacc
          · exact Or.inr ⟨w', List.mem_cons_of_mem w hw', hq', he', hne'⟩
        · rintro (hacc | ⟨w', hw', hq', he', hne'⟩)
          · exact Or.inl hacc
          · rcases List.mem_cons.mp hw' with rfl | hw''
            · exact absurd ht hne'
            · exact Or.inr ⟨w', hw'', hq', he', hne'⟩
    · rename_i hq
      rw [mem_collectTags ws _ t]
      constructor
      · rintro (hacc | ⟨w', hw', hq', he', hne'⟩)
        · exact Or.inl hacc
        · exact Or.inr ⟨w', List.mem_cons_of_mem w hw', hq', he', hne'⟩
      · rintro (hacc | ⟨w', hw', hq', he', hne'⟩)
        · exact Or.inl hacc
        · rcases List.mem_cons.mp hw' with rfl | hw''
          · exact absurd hq' hq
          · exact Or.inr ⟨w', hw'', hq', he', hne'⟩
theorem splitNl_ne_nil : ∀ cs : List Char, splitNl cs ≠ []
  | [] => by simp [splitNl]
  | c :: cs => by
    rw [splitNl]
    split
    · simp
    · cases h : splitNl cs <;> simp

theorem splitNl_cons_nl (cs : List Char) : splitNl ('\n' :: cs) = [] :: splitNl cs := by
  rw [splitNl, if_pos rfl]

theorem splitNl_cons_not_nl {c : Char} (h : c ≠ '\n') {cs : List Char} {p : List Char}
    {ps : List (List Char)} (hs : splitNl cs = p :: ps) :
    splitNl (c :: cs) = (c :: p) :: ps := by
  rw [splitNl, if_neg h, hs]

theorem splitNl_length : ∀ cs : List Char, (splitNl cs).length = cs.count '\n' + 1
  | [] => by simp [splitNl]
  | c :: cs => by
    by_cases h : c = '\n'
    · subst h
      rw [splitNl_cons_nl]
      simp [splitNl_length cs, List.count_cons]
    · cases hs : splitNl cs with
      | nil => exact absurd hs (splitNl_ne_nil cs)
      | cons p ps =>
        rw [splitNl_cons_not_nl h hs]
        have := splitNl_length cs
        rw [hs] at this
        simp only [List.length_cons] at this ⊢
        rw [this]
        simp [List.count_cons, h]

theorem splitNl_ne_singleton_nil (c : Char) (cs : List Char) : splitNl (c :: cs) ≠ [[]] := by
  by_cases h : c = '\n'
  · subst h
    rw [splitNl_cons_nl]
    intro he
    exact splitNl_ne_nil cs (by injection he)
  · cases hs : splitNl cs with
    | nil => exact absurd hs (splitNl_ne_nil cs)
    | cons p ps =>
      rw [splitNl_cons_not_nl h hs]
      simp

theorem splitNl_getLast : ∀ cs : List Char,
    ((splitNl cs).getLast? = some []) ↔ (cs = [] ∨ cs.getLast? = some '\n')
  | [] => by simp [splitNl]
  | [c] => by
    by_cases h : c = '\n'
    · subst h
      rw [splitNl_cons_nl]
      simp [splitNl]
    · rw [splitNl_cons_not_nl h (by simp [splitNl] : splitNl ([] : List Char) = [[]])]
      simp [h]
  | c :: d :: cs => by
    have ih := splitNl_getLast (d :: cs)
    obtain ⟨q, qs, hq⟩ : ∃ q qs, splitNl (d :: cs) = q :: qs := by
      cases hs : splitNl (d :: cs) with
      | nil => exact absurd hs (splitNl_ne_nil _)
      | cons q qs => exact ⟨q, qs, rfl⟩
    by_cases h : c = '\n'
    · subst h
      rw [splitNl_cons_nl, hq, List.getLast?_cons_cons, ← hq, ih]
      simp [List.getLast?_cons_cons]
    · rw [splitNl_cons_not_nl h hq]
      cases qs with
      | nil =>
        simp only [List.getLast?_singleton, Option.some.injEq, List.getLast?_cons_cons]
        constructor
        · intro he
          exact absurd he (List.cons_ne_nil c q)
        · rintro (he | he)
          · exact absurd he (List.cons_ne_nil c (d :: cs))
          · have h2 := ih.mpr (Or.inr he)
            rw [hq] at h2
            simp only [List.getLast?_singleton, Option.some.injEq] at h2
            rw [h2] at hq
            exact absurd hq (splitNl_ne_singleton_nil d cs)
      | cons r rs =>
        rw [List.getLast?_cons_cons]
        have hmid : (q :: r :: rs).getLast? = (r :: rs).getLast? := List.getLast?_cons_cons ..
        rw [← hmid, ← hq, ih]
        simp [List.getLast?_cons_cons]

theorem rustLines_length (cs : List Char) :
    (rustLines cs).length =
      if cs = [] ∨ cs.getLast? = some '\n' then cs.count '\n' else cs.count '\n' + 1 := by
  unfold rustLines
  rw [List.length_map]
  by_cases h : (splitNl cs).getLast? = some []
  · rw [if_pos h, List.length_dropLast, splitNl_length, if_pos (splitNl_getLast cs |>.mp h)]
    simp
  · rw [if_neg h, splitNl_length, if_neg (fun hh => h ((splitNl_getLast cs).mpr hh))]
theorem rustTrim_eq_nil_iff (s : List Char) :
    rustTrim s = [] ↔ ∀ c ∈ s, c.isWhitespace = true := by
  unfold rustTrim
  rw [List.reverse_eq_nil_iff, List.dropWhile_eq_nil_iff]
  constructor
  · intro h c hc
    rcases List.mem_append.mp
        ((List.takeWhile_append_dropWhile (p := Char.isWhitespace) (l := s)) ▸ hc) with h1 | h2
    · exact List.mem_takeWhile_imp h1
    · exact h c (List.mem_reverse.mpr h2)
  · intro h c hc
    exact h c ((List.dropWhile_sublist Char.isWhitespace).mem (List.mem_reverse.mp hc))

theorem trim_nonempty_eq_any (s : List Char) :
    (!(rustTrim s).isEmpty) = s.any (fun c => !c.isWhitespace) := by
  cases hany : s.any (fun c => !c.isWhitespace) with
  | false =>
    have hall : ∀ c ∈ s, c.isWhitespace = true := by
      intro c hc
      have := List.any_eq_false.mp hany c hc
      simpa using this
    have : rustTrim s = [] := (rustTrim_eq_nil_iff s).mpr hall
    simp [this]
  | true =>
    obtain ⟨c, hc, hcw⟩ := List.any_eq_true.mp hany
    have : rustTrim s ≠ [] := by
      intro he
      have := (rustTrim_eq_nil_iff s).mp he c hc
      simp [this] at hcw
    simpa [List.isEmpty_iff] using this

theorem runSdk_append : ∀ (ops more : List SdkOp) (s : SdkState),
    runSdk s (ops ++ more) = runSdk (runSdk s ops) more
  | [], more, s => rfl
  | op :: ops, more, s => by
    rw [List.cons_append]
    show runSdk (stepSdk s op) (ops ++ more) = _
    rw [runSdk_append ops more (stepSdk s op)]
    rfl

theorem alive_subset_step (s : SdkState) (op : SdkOp) : s.alive ⊆ (stepSdk s op).alive := by
  cases op <;> simp only [stepSdk] <;> first | exact List.subset_cons_self _ _ | exact fun x hx => hx

theorem alive_mono : ∀ (ops : List SdkOp) (s : SdkState) (h : Nat),
    h ∈ s.alive → h ∈ (runSdk s ops).alive
  | [], s, h, hh => hh
  | op :: ops, s, h, hh => alive_mono ops _ h (alive_subset_step s op hh)

theorem mem_upsert {key : String} {v : Nat} : ∀ {l : List (String × Nat)} {p : String × Nat},
    p ∈ upsert key v l → p = (key, v) ∨ p ∈ l
  | [], p, h => by
    simp [upsert] at h
    exact Or.inl h
  | (k2, v2) :: rest, p, h => by
    unfold upsert at h
    split at h
    · rcases List.mem_cons.mp h with rfl | hm
      · exact Or.inl rfl
      · exact Or.inr (List.mem_cons_of_mem _ hm)
    · rcases List.mem_cons.mp h with rfl | hm
      · exact Or.inr (List.mem_cons_self _ _)
      · rcases mem_upsert hm with h1 | h2
        · exact Or.inl h1
        · exact Or.inr (List.mem_cons_of_mem _ h2)

theorem sdkInv_step {s : SdkState} (hs : sdkInv s) (op : SdkOp) : sdkInv (stepSdk s op) := by
  obtain ⟨hc, he⟩ := hs
  cases op with
  | regCommand id h =>
    refine ⟨?_, ?_⟩
    · intro p hp
      rcases mem_upsert hp with rfl | hm
      · exact List.mem_cons_self _ _
      · exact List.mem_cons_of_mem _ (hc p hm)
    · intro p hp
      exact List.mem_cons_of_mem _ (he p hp)
  | regEvent name h =>
    refine ⟨?_, ?_⟩
    · intro p hp
      exact List.mem_cons_of_mem _ (hc p hp)
    · intro p hp
      rcases mem_upsert hp with rfl | hm
      · exact List.mem_cons_self _ _
      · exact List.mem_cons_of_mem _ (he p hm)
  | unregCommand id =>
    exact ⟨fun p hp => hc p (List.mem_of_mem_filter hp), he⟩
  | unregEvent name =>
    exact ⟨hc, fun p hp => he p (List.mem_of_mem_filter hp)⟩

theorem sdkInv_run : ∀ (ops : List SdkOp) (s : SdkState), sdkInv s → sdkInv (runSdk s ops)
  | [], _, h => h
  | op :: ops, s, h => sdkInv_run ops _ (sdkInv_step h op)

theorem lookup_mem : ∀ {l : List (String × Nat)} {n : String} {h : Nat},
    l.lookup n = some h → (n, h) ∈ l
  | [], n, h, hl => by simp [List.lookup] at hl
  | (k, v) :: es, n, h, hl => by
    rw [List.lookup] at hl
    split at hl
    · rename_i heq
      have hk : n = k := by simpa using heq
      have hv : v = h := by simpa using hl
      subst hk
      subst hv
      exact List.mem_cons_self _ _
    · exact List.mem_cons_of_mem _ (lookup_mem hl)

/-! ## Claim theorems -/

/-- C9: for every message string `m`, `console_log`, `console_error` and
`console_warn` forward to the corresponding host sink exactly the string
obtained by prefixing `m` with the plugin marker `"[Plugin] "`. -/
theorem console_bridge_forwards_with_plugin_marker (m : String) :
    console_log m = ⟨LogLevel.log, "[Plugin] " ++ m⟩ ∧
    console_error m = ⟨LogLevel.error, "[Plugin] " ++ m⟩ ∧
    console_warn m = ⟨LogLevel.warn, "[Plugin] " ++ m⟩ :=
  ⟨rfl, rfl, rfl⟩

/-- C10: in every plugin state and for every input, the SDK bridge
methods `replace_content`, `insert_at_cursor`, `update_panel` and
`update_status_bar` return `Ok(())` unconditionally, `get_content` and
`get_selection` return the empty string unconditionally, and none of them
performs a capability check or a host call (the emitted host-call list is
always empty). -/
theorem bridge_methods_unconditional_stubs :
    (∀ s, TextAPI.replace_content s = (Except.ok (), [])) ∧
    (∀ s, TextAPI.insert_at_cursor s = (Except.ok (), [])) ∧
    (∀ p h, UiAPI.update_panel p h = (Except.ok (), [])) ∧
    (∀ i t, UiAPI.update_status_bar i t = (Except.ok (), [])) ∧
    TextAPI.get_content = ("", []) ∧
    TextAPI.get_selection = ("", []) :=
  ⟨fun _ => rfl, fun _ => rfl, fun _ _ => rfl, fun _ _ => rfl, rfl, rfl⟩

/-- C1: evaluation of the bridge operations at a concrete failing input
for the documented permission contract. The manifest grants no
permissions, so by the documented contract every gated operation should
return a `PermissionDenied` error; instead each bridge method succeeds
with `Ok(())` (and performs no host call), and the reads return `""` —
the capability check documented in `api/text.rs` / `api/ui.rs` is never
performed. -/
theorem bridge_permission_denied_failing_input :
    (PluginManifest.mk "test" "Test" "0.1.0" "" "" []).permissions.contains "text.transform" = false ∧
    (PluginManifest.mk "test" "Test" "0.1.0" "" "" []).permissions.contains "ui.panel" = false ∧
    (PluginManifest.mk "test" "Test" "0.1.0" "" "" []).permissions.contains "ui.statusBar" = false ∧
    (PluginManifest.mk "test" "Test" "0.1.0" "" "" []).permissions.contains "text.read" = false ∧
    TextAPI.replace_content "x" = (Except.ok (), []) ∧
    TextAPI.insert_at_cursor "x" = (Except.ok (), []) ∧
    UiAPI.update_panel "panel" "<p>x</p>" = (Except.ok (), []) ∧
    UiAPI.update_status_bar "item" "x" = (Except.ok (), []) ∧
    TextAPI.get_content = ("", []) ∧
    TextAPI.get_selection = ("", []) :=
  ⟨rfl, rfl, rfl, rfl, rfl, rfl, rfl, rfl, rfl, rfl⟩

/-- C5: the word-count scenario. On `"Hello world\n\nSecond paragraph"`,
`count_stats` returns `words = 4`, `lines = 3`, `paragraphs = 2`,
`characters = 29`, and `characters_no_spaces` equal to the character
count minus the number of whitespace characters. -/
theorem count_stats_word_count_scenario :
    count_stats "Hello world\n\nSecond paragraph" =
      { words := 4, characters := 29, characters_no_spaces := 25, lines := 3, paragraphs := 2 } ∧
    (count_stats "Hello world\n\nSecond paragraph").characters_no_spaces =
      (count_stats "Hello world\n\nSecond paragraph").characters -
        (("Hello world\n\nSecond paragraph").data.filter (fun c => c.isWhitespace)).length := by
  constructor
  · decide
  · decide

/-- C7: dispatching `content.changed` with payload `{content: ""}` makes
each of the three registered content-processing handlers return the null
sentinel (empty-content short-circuit), for any markdown renderer. -/
theorem content_changed_empty_payload_yields_null (render : String → String) :
    markdownHandler render (some (JVal.jobj [("content", JVal.jstr "")])) = HandlerOut.null ∧
    tagHandler (some (JVal.jobj [("content", JVal.jstr "")])) = HandlerOut.null ∧
    wordCountHandler (some (JVal.jobj [("content", JVal.jstr "")])) = HandlerOut.null :=
  ⟨rfl, rfl, rfl⟩

/-- C8: for every payload whose `content` field is missing, not a string,
or whose parse failed (`none`), each handler treats the content as the
empty string and returns the null sentinel; the handlers are total
functions, so the boundary call cannot fail. -/
theorem malformed_payload_degrades_to_null (render : String → String) (data : Option JVal)
    (h : contentFieldStr data = none) :
    extractContent data = "" ∧
    markdownHandler render data = HandlerOut.null ∧
    tagHandler data = HandlerOut.null ∧
    wordCountHandler data = HandlerOut.null := by
  have he : extractContent data = "" := by
    unfold extractContent
    rw [h]
  refine ⟨he, ?_, ?_, ?_⟩ <;>
    simp [markdownHandler, tagHandler, wordCountHandler, he]

/-- C8 witness: a payload with no `content` field evaluates to the null
sentinel. -/
theorem malformed_payload_degrades_to_null_witness :
    markdownHandler id (some (JVal.jobj [("data", JVal.jnum 3)])) = HandlerOut.null :=
  (malformed_payload_degrades_to_null id (some (JVal.jobj [("data", JVal.jnum 3)])) rfl).2.1

/-- C2: after `deactivate()` the registry holds no handler of the
deactivated instance — every remaining entry has a different owner, so no
dispatch lookup can reach a handler of that instance. -/
theorem deactivated_instance_unreachable_from_dispatch (r : Registry) (inst : Nat) :
    ((deactivateInstance inst r).entries.all (fun e => e.owner != inst)) = true ∧
    (∀ kind name e, dispatchLookup (deactivateInstance inst r) kind name = some e →
      e.owner ≠ inst) := by
  constructor
  · rw [List.all_eq_true]
    intro e he
    simp only [deactivateInstance] at he
    exact List.of_mem_filter (a := e) he
  · intro kind name e hfind
    simp only [dispatchLookup] at hfind
    have hmem := List.mem_of_find?_eq_some hfind
    simp only [deactivateInstance] at hmem
    exact bne_iff_ne.mp (List.of_mem_filter (a := e) hmem)

/-- C2 witness: an entry of another instance that survives deactivation
is not owned by the deactivated instance. -/
theorem deactivated_instance_unreachable_from_dispatch_witness :
    RegEntry.owner ⟨HKind.event, "content.changed", 1, 0⟩ ≠ 2 :=
  (deactivated_instance_unreachable_from_dispatch
      ⟨[⟨HKind.event, "content.changed", 1, 0⟩]⟩ 2).2
    HKind.event "content.changed" ⟨HKind.event, "content.changed", 1, 0⟩ (by decide)

/-- C3 counterexample: register a handler for `content.changed`, then
unregister it. The registry entry is gone, but the closure (handler 0) is
still allocated: `Closure::forget()` never releases it, so release does
not happen "exactly when the entry is removed". -/
theorem closure_released_on_entry_removal_counterexample :
    (runSdk initSdk
        [SdkOp.regEvent "content.changed" 0, SdkOp.unregEvent "content.changed"]).events = [] ∧
    0 ∈ (runSdk initSdk
        [SdkOp.regEvent "content.changed" 0, SdkOp.unregEvent "content.changed"]).alive := by
  constructor
  · decide
  · decide

/-- C3 amended: once registered via `register_command`/`register_event`,
a handler closure stays reachable for as long as its registry entry
exists (in particular across the return of the registering call), and in
fact forever: the SDK `forget`s the closure, so no later operation ever
releases it. -/
theorem closures_alive_while_registered (ops : List SdkOp) (name : String) (h : Nat)
    (hreg : (runSdk initSdk ops).commands.lookup name = some h ∨
            (runSdk initSdk ops).events.lookup name = some h) :
    h ∈ (runSdk initSdk ops).alive ∧
    ∀ more, h ∈ (runSdk initSdk (ops ++ more)).alive := by
  have hinv : sdkInv (runSdk initSdk ops) :=
    sdkInv_run ops initSdk
      ⟨fun p hp => absurd hp (List.not_mem_nil p), fun p hp => absurd hp (List.not_mem_nil p)⟩
  have halive : h ∈ (runSdk initSdk ops).alive := by
    rcases hreg with hl | hl
    · exact hinv.1 _ (lookup_mem hl)
    · exact hinv.2 _ (lookup_mem hl)
  refine ⟨halive, fun more => ?_⟩
  rw [runSdk_append]
  exact alive_mono more _ h halive

/-- C3 witness: a freshly registered event handler is alive. -/
theorem closures_alive_while_registered_witness :
    5 ∈ (runSdk initSdk [SdkOp.regEvent "content.changed" 5]).alive :=
  (closures_alive_while_registered [SdkOp.regEvent "content.changed" 5] "content.changed" 5
    (Or.inr (by decide))).1

/-- C4: for every input text the tag extractor returns a sorted,
duplicate-free list of nonempty tags containing no ASCII uppercase
letter; a string is in the output exactly when it is the trimmed,
lowercased tag of some whitespace-delimited word that starts with `'#'`
and is longer than one character; and `"#Rust #rust #RUST"` yields
exactly `["rust"]`. -/
theorem extract_tags_sorted_unique_lowercase (text : String) :
    (extract_tags_internal text).Sorted (· ≤ ·) ∧
    (extract_tags_internal text).Nodup ∧
    (∀ t ∈ extract_tags_internal text,
      t ≠ "" ∧ (∀ c ∈ t.data, c.isUpper = false) ∧
      ∃ w ∈ splitWs text.data, w.head? = some '#' ∧ 1 < w.length ∧ t = tagOf w) ∧
    (∀ w ∈ splitWs text.data, w.head? = some '#' → 1 < w.length → tagOf w ≠ "" →
      tagOf w ∈ extract_tags_internal text) ∧
    extract_tags_internal "#Rust #rust #RUST" = ["rust"] := by
  refine ⟨?_, ?_, ?_, ?_, ?_⟩
  · exact (List.sorted_insertionSort (fun a b => strLe a b = true)
      (collectTags (splitWs text.data) [])).imp (fun hab => (strLe_iff _ _).mp hab)
  · exact ((List.perm_insertionSort (fun a b => strLe a b = true)
      (collectTags (splitWs text.data) [])).nodup_iff).mpr
      (nodup_collectTags _ [] List.nodup_nil)
  · intro t ht
    rw [extract_tags_internal, List.mem_insertionSort] at ht
    rcases (mem_collectTags _ _ t).mp ht with hacc | ⟨w, hw, ⟨hh, hl⟩, he, hne⟩
    · exact absurd hacc (List.not_mem_nil t)
    · refine ⟨he ▸ hne, ?_, ⟨w, hw, hh, hl, he.symm⟩⟩
      intro c hc
      rw [← he] at hc
      obtain ⟨x, hx, rfl⟩ := List.mem_map.mp hc
      exact lowerChar_not_upper x
  · intro w hw hh hl hne
    rw [extract_tags_internal, List.mem_insertionSort]
    exact (mem_collectTags _ _ _).mpr (Or.inr ⟨w, hw, ⟨hh, hl⟩, rfl, hne⟩)
  · decide

/-- C4 witness: the extracted tag of the scenario is nonempty. -/
theorem extract_tags_sorted_unique_lowercase_witness :
    ("rust" : String) ≠ "" :=
  ((extract_tags_sorted_unique_lowercase "#Rust #rust #RUST").2.2.1 "rust" (by decide)).1

/-- C6 counterexample: for the text `"a\n"`, which ends in a trailing
newline, `count_stats` reports 1 line, while the number of
newline-delimited segments of the text (minimum 1) is 2 — the claimed
equality fails on texts with a trailing newline. -/
theorem count_stats_lines_trailing_newline_counterexample :
    (count_stats "a\n").lines = 1 ∧ specNewlineSegments "a\n" = 2 := by
  constructor
  · decide
  · decide

/-- C6 amended: `lines` counts newline-delimited segments in the
terminator sense of Rust `str::lines` — the final empty segment produced
by a trailing newline (or the empty text) does not count — with a
minimum of 1; explicitly, it is the number of `'\n'` characters plus one
when the text is nonempty and does not end in `'\n'`, floored at 1.
`paragraphs` counts the `"\n\n"`-delimited segments containing at least
one non-whitespace character, floored at 1. -/
theorem count_stats_lines_paragraphs_characterization (t : String) :
    (count_stats t).lines =
      (if t.data = [] ∨ t.data.getLast? = some '\n'
        then t.data.count '\n' else t.data.count '\n' + 1).max 1 ∧
    (count_stats t).paragraphs =
      (((splitOnNlNl t.data []).filter (fun s => s.any (fun c => !c.isWhitespace))).length).max 1 := by
  constructor
  · show ((rustLines t.data).length).max 1 = _
    rw [rustLines_length]
  · show (((splitOnNlNl t.data []).filter (fun s => !(rustTrim s).isEmpty)).length).max 1 = _
    rw [List.filter_congr (fun s _ => trim_nonempty_eq_any s)]
